import Mathlib

/-!
Shallow embedding of `archiveOrganization.js`, a one-shot Firestore archival
script.  The script queries a live collection for documents whose
`organization_id` field equals a given value, partitions them into batches of
at most `batchSize`, and for each batch stages upserts into an archive
Firestore and deletes from the live Firestore, committing the archive batch
and then the delete batch.  A dry run only logs.  All errors inside the
archival function are caught at its top level and logged.

The embedding models a Firestore instance as an ordered association list of
collections, a batched write as a staged list of operations applied
atomically on commit, and external failures (query errors, commit
rejections) through an `Env` oracle.  Every step of a run is recorded in an
event trace (log lines and commit attempts), from which the theorems read
off the observable behaviour.
-/

set_option maxHeartbeats 1000000

namespace ArchiveScript

/-- A Firestore document: a unique identifier together with its field map. -/
structure Doc where
  id : String
  data : List (String × String)
deriving Repr, DecidableEq

/-- Lookup of the `organization_id` field of a document, as read by
`doc.data().organization_id` in the script. -/
def Doc.orgField (d : Doc) : Option String :=
  (d.data.find? (fun p => p.1 == "organization_id")).map (fun p => p.2)

/-- A Firestore database: named collections holding documents in snapshot
order. -/
abbrev Firestore := List (String × List Doc)

/-- Contents of a named collection (empty when the collection is absent). -/
def getCollection (fs : Firestore) (name : String) : List Doc :=
  match fs.find? (fun p => p.1 == name) with
  | some p => p.2
  | none => []

/-- Upsert of a document into a collection: an existing document with the
same identifier is overwritten in place, otherwise the document is appended. -/
def setInColl (docs : List Doc) (docId : String) (data : List (String × String)) : List Doc :=
  if docs.any (fun d => d.id == docId) then
    docs.map (fun d => if d.id == docId then ⟨docId, data⟩ else d)
  else
    docs ++ [⟨docId, data⟩]

/-- Upsert of a document into a named collection of a Firestore instance
(`ref.set`, which creates the collection when absent). -/
def setDoc (fs : Firestore) (coll docId : String) (data : List (String × String)) : Firestore :=
  if fs.any (fun p => p.1 == coll) then
    fs.map (fun p => if p.1 == coll then (p.1, setInColl p.2 docId data) else p)
  else
    fs ++ [(coll, setInColl [] docId data)]

/-- Deletion of a document by identifier from a named collection
(a no-op when the document is absent). -/
def deleteDoc (fs : Firestore) (coll docId : String) : Firestore :=
  fs.map (fun p => if p.1 == coll then (p.1, p.2.filter (fun d => !(d.id == docId))) else p)

/-- The query `liveRef.where("organization_id", "==", organizationId).get()`:
the documents of the collection whose `organization_id` field equals the
given value, in snapshot order. -/
def queryByOrg (fs : Firestore) (coll orgId : String) : List Doc :=
  (getCollection fs coll).filter (fun d => d.orgField == some orgId)

/-- A staged write operation of a Firestore batched write. -/
inductive WriteOp where
  | set (collection : String) (docId : String) (data : List (String × String))
  | del (collection : String) (docId : String)
deriving Repr, DecidableEq

/-- Application of one staged operation to a Firestore instance. -/
def applyOp (fs : Firestore) : WriteOp → Firestore
  | WriteOp.set coll docId data => setDoc fs coll docId data
  | WriteOp.del coll docId => deleteDoc fs coll docId

/-- Atomic application of a committed batch: all staged operations applied
in staging order. -/
def applyOps (fs : Firestore) (ops : List WriteOp) : Firestore :=
  ops.foldl applyOp fs

/-- The two database sinks of the script: the archive Firestore project and
the live (source) Firestore project. -/
inductive Sink where
  | archive
  | source
deriving Repr, DecidableEq

/-- One observable event of a run: an info log line, an error log line, or
a commit attempt of a staged batch against a sink (with its outcome). -/
inductive Event where
  | info (msg : String)
  | err (msg : String)
  | commit (sink : Sink) (ops : List WriteOp) (ok : Bool)
deriving Repr, DecidableEq

/-- The mutable world a run acts on: the live Firestore, the archive
Firestore, the event trace so far, and the number of commit attempts made. -/
structure RunState where
  live : Firestore
  archive : Firestore
  trace : List Event
  nextCommit : Nat
deriving Repr, DecidableEq

/-- Failure oracle for the external calls: whether the preflight query
succeeds, whether the archival query succeeds, and the outcome of each
commit attempt (indexed in attempt order; attempts beyond the list
succeed). -/
structure Env where
  testQueryOk : Bool
  queryOk : Bool
  commitOk : List Bool
deriving Repr

/-- Outcome of the `i`-th commit attempt under the oracle. -/
def commitOkAt (env : Env) (i : Nat) : Bool :=
  env.commitOk.getD i true

/-- The oracle under which every external call succeeds. -/
def envOk : Env := ⟨true, true, []⟩

/-- Appending an info log line to the trace (`logger.info`). -/
def logInfoEv (s : RunState) (msg : String) : RunState :=
  { s with trace := s.trace ++ [Event.info msg] }

/-- Appending an error log line to the trace (`logger.error`). -/
def logErrEv (s : RunState) (msg : String) : RunState :=
  { s with trace := s.trace ++ [Event.err msg] }

/-- One `batch.commit()` call: the attempt is recorded in the trace; on
success the staged operations are applied atomically to the sink, on
failure (a rejected promise) nothing is applied and `false` is returned so
the caller can raise. -/
def attemptCommit (env : Env) (s : RunState) (sink : Sink) (ops : List WriteOp) :
    RunState × Bool :=
  let ok := commitOkAt env s.nextCommit
  let s1 : RunState :=
    { s with trace := s.trace ++ [Event.commit sink ops ok], nextCommit := s.nextCommit + 1 }
  if ok then
    match sink with
    | Sink.archive => ({ s1 with archive := applyOps s1.archive ops }, true)
    | Sink.source => ({ s1 with live := applyOps s1.live ops }, true)
  else
    (s1, false)

/-- The run configuration destructured by `archiveContactsDocuments`
(defaults `batchSize = 500`, `isDryRun = false`). -/
structure Config where
  liveCollection : String
  archiveCollection : String
  organizationId : String
  batchSize : Nat := 500
  isDryRun : Bool := false
deriving Repr, DecidableEq

/-- The mutable loop state of the archival iteration: the run state plus the
staged delete batch against the live Firestore, the staged set batch against
the archive Firestore, and the `operations` counter. -/
structure LoopSt where
  rs : RunState
  batch : List WriteOp
  archiveBatch : List WriteOp
  operations : Nat

/-- Log text of `Starting archival process for organization_id ...`. -/
def startMsg (cfg : Config) : String :=
  "Starting archival process for organization_id " ++ cfg.organizationId ++
    " from " ++ cfg.liveCollection ++ " to " ++ cfg.archiveCollection ++ "..."

/-- Log text of the per-document sample line. -/
def docLineMsg (d : Doc) : String :=
  "Document ID: " ++ d.id ++ ", organization_id: " ++ d.orgField.getD "undefined"

/-- Log text of the per-document dry-run line. -/
def dryDocMsg (d : Doc) : String :=
  "Dry Run: Would archive and delete Document ID: " ++ d.id

/-- The commit block of the loop: under a dry run only a log line is
emitted; otherwise the archive batch is committed with `await`, then the
delete batch, a rejected commit raising out of the block (`Except.error`
carries the state at the raise point, the following statements being
skipped). -/
def commitBlock (env : Env) (cfg : Config) (st : LoopSt) (isLast : Bool) :
    Except RunState RunState :=
  if cfg.isDryRun then
    Except.ok (logInfoEv st.rs
      ((if isLast then "Dry Run: Would archive and delete the last "
        else "Dry Run: Would archive and delete ") ++
        toString st.operations ++ " documents."))
  else
    match attemptCommit env st.rs Sink.archive st.archiveBatch with
    | (s1, false) => Except.error s1
    | (s1, true) =>
      match attemptCommit env s1 Sink.source st.batch with
      | (s2, false) => Except.error s2
      | (s2, true) =>
        Except.ok (logInfoEv s2
          ((if isLast then "Archived and deleted the last " else "Archived and deleted ") ++
            toString st.operations ++ " documents."))

/-- The `for (const doc of querySnapshot.docs)` loop: each document stages a
set into the archive batch and a delete into the live batch (or logs, under
a dry run), `operations` is incremented, and when it reaches `batchSize` the
commit block runs and the batches and counter are reset.  A raise inside the
commit block propagates (`Except.error`). -/
def processDocs (env : Env) (cfg : Config) : List Doc → LoopSt → Except RunState LoopSt
  | [], st => Except.ok st
  | d :: rest, st =>
    let st1 : LoopSt :=
      if cfg.isDryRun then
        { st with rs := logInfoEv st.rs (dryDocMsg d), operations := st.operations + 1 }
      else
        { st with
            batch := st.batch ++ [WriteOp.del cfg.liveCollection d.id],
            archiveBatch := st.archiveBatch ++
              [WriteOp.set cfg.archiveCollection d.id d.data],
            operations := st.operations + 1 }
    if st1.operations = cfg.batchSize then
      match commitBlock env cfg st1 false with
      | Except.error s => Except.error s
      | Except.ok rs2 => processDocs env cfg rest ⟨rs2, [], [], 0⟩
    else
      processDocs env cfg rest st1

/-- The archival function `archiveContactsDocuments`: query the matching
documents; return on an empty result; otherwise log a sample, run the batch
loop, commit any remaining partial batch, and log success.  The whole body
is wrapped in try/catch: any raise is logged as
`Error during archival process:` and the function returns normally. -/
def archiveContactsDocuments (env : Env) (cfg : Config) (s0 : RunState) : RunState :=
  let s1 := logInfoEv s0 (startMsg cfg)
  if env.queryOk = false then
    logErrEv s1 "Error during archival process:"
  else
    let docs := queryByOrg s1.live cfg.liveCollection cfg.organizationId
    if docs.isEmpty then
      logInfoEv s1 "No documents match the archival criteria."
    else
      let s2 := logInfoEv s1 ("Found " ++ toString docs.length ++ " documents to archive.")
      let s3 := (docs.take 5).foldl (fun s d => logInfoEv s (docLineMsg d)) s2
      match processDocs env cfg docs ⟨s3, [], [], 0⟩ with
      | Except.error sErr => logErrEv sErr "Error during archival process:"
      | Except.ok lst =>
        if lst.operations > 0 then
          match commitBlock env cfg lst true with
          | Except.error sErr => logErrEv sErr "Error during archival process:"
          | Except.ok s4 => logInfoEv s4 "Archival process completed successfully."
        else
          logInfoEv lst.rs "Archival process completed successfully."

/-- The preflight probe `testFetchDocuments`: query the live collection for
matches, log a sample, and report whether any match exists; a query error is
caught, logged as `Error during test fetch:`, and reported as `false`. -/
def testFetchDocuments (env : Env) (s : RunState) (liveCollection organizationId : String) :
    Bool × RunState :=
  let s1 := logInfoEv s
    ("Testing fetch for organization_id " ++ organizationId ++ " from " ++
      liveCollection ++ " collection...")
  if env.testQueryOk = false then
    (false, logErrEv s1 "Error during test fetch:")
  else
    let docs := queryByOrg s1.live liveCollection organizationId
    if docs.isEmpty then
      (false, logInfoEv s1 "No documents found for testing.")
    else
      let s2 := logInfoEv s1 ("Found " ++ toString docs.length ++ " documents for testing.")
      (true, (docs.take 5).foldl (fun s d => logInfoEv s (docLineMsg d)) s2)

/-- The parsed command line: the required `--org` value and the optional
`--dryRun` flag, `none` when the flag is omitted (JavaScript `undefined`). -/
structure Argv where
  org : String
  dryRun : Option Bool
deriving Repr, DecidableEq

/-- JavaScript truthiness of the `dryRun` value: `undefined` is falsy, and a
destructuring default `isDryRun = false` likewise replaces `undefined` by
`false`. -/
def jsTruthy (b : Option Bool) : Bool :=
  b.getD false

/-- The configuration `main` passes to `archiveContactsDocuments`. -/
def mainConfig (argv : Argv) : Config :=
  { liveCollection := "Organizations"
    archiveCollection := "archive_Organizations"
    organizationId := argv.org
    batchSize := 500
    isDryRun := jsTruthy argv.dryRun }

/-- The `main` function: verify the project connections (log lines only),
run the preflight probe, exit when it reports no documents, log the dry-run
banner when the flag is truthy, and run the archival function. -/
def mainRun (env : Env) (argv : Argv) (s0 : RunState) : RunState :=
  let s1 := logInfoEv (logInfoEv s0 "Main Project ID: main") "Archive Project ID: archive"
  match testFetchDocuments env s1 "Organizations" argv.org with
  | (false, s2) => logInfoEv s2 "No documents found. Exiting archival process."
  | (true, s2) =>
    let s3 :=
      if jsTruthy argv.dryRun then
        logInfoEv s2 "Dry run mode enabled. No documents will be archived or deleted."
      else s2
    archiveContactsDocuments env (mainConfig argv) s3

/-- A loaded service account credential file, of which the script inspects
only the `project_id` field. -/
structure ServiceAccount where
  project_id : Option String
deriving Repr, DecidableEq

/-- JavaScript truthiness of a string field: both an absent field
(`undefined`) and the empty string are falsy. -/
def jsTruthyStr : Option String → Bool
  | none => false
  | some s => !(s == "")

/-- The process around `main`: the startup `project_id` checks call
`process.exit(1)` on a falsy field; otherwise the script runs `main` and the
process terminates normally with exit status 0.  The result is the exit
status together with the final state. -/
def runProcess (env : Env) (argv : Argv) (defaultSA archiveSA : ServiceAccount)
    (s0 : RunState) : Nat × RunState :=
  if jsTruthyStr defaultSA.project_id = false then
    (1, logErrEv s0 "Default service account JSON is missing project_id.")
  else if jsTruthyStr archiveSA.project_id = false then
    (1, logErrEv s0 "Archive service account JSON is missing project_id.")
  else
    (0, mainRun env argv s0)

/-- The commit attempts recorded in a trace, in order. -/
def commitEvents : List Event → List (Sink × List WriteOp × Bool)
  | [] => []
  | Event.commit sink ops ok :: rest => (sink, ops, ok) :: commitEvents rest
  | Event.info _ :: rest => commitEvents rest
  | Event.err _ :: rest => commitEvents rest

/-- The staged archive upsert of a document under a configuration. -/
def setOpOf (cfg : Config) (d : Doc) : WriteOp :=
  WriteOp.set cfg.archiveCollection d.id d.data

/-- The staged source delete of a document under a configuration. -/
def delOpOf (cfg : Config) (d : Doc) : WriteOp :=
  WriteOp.del cfg.liveCollection d.id

/-- The full batches the loop completes: a chunk is emitted each time the
accumulator (of current size `acc.length`) reaches `B`. -/
def fullChunksAux (B : Nat) (acc : List Doc) : List Doc → List (List Doc)
  | [] => []
  | d :: rest =>
    if acc.length + 1 = B then (acc ++ [d]) :: fullChunksAux B [] rest
    else fullChunksAux B (acc ++ [d]) rest

/-- The partial batch left in the accumulator after the loop. -/
def lastAccAux (B : Nat) (acc : List Doc) : List Doc → List Doc
  | [] => acc
  | d :: rest =>
    if acc.length + 1 = B then lastAccAux B [] rest
    else lastAccAux B (acc ++ [d]) rest

/-- All batches a run commits: the full chunks, followed by the final
partial batch when it is non-empty. -/
def chunksOf (B : Nat) (l : List Doc) : List (List Doc) :=
  fullChunksAux B [] l ++ (if (lastAccAux B [] l).isEmpty then [] else [lastAccAux B [] l])

/-- The commit-event pairs an all-success non-dry run produces for a list of
batches: per batch the archive commit of the staged sets, then the source
commit of the staged deletes. -/
def pairEventsOf (cfg : Config) : List (List Doc) → List (Sink × List WriteOp × Bool)
  | [] => []
  | c :: rest =>
    (Sink.archive, c.map (setOpOf cfg), true) ::
      (Sink.source, c.map (delOpOf cfg), true) :: pairEventsOf cfg rest

/-- The run-state effect of one successfully committed batch: the archive
commit event and upserts, the source commit event and deletes, and the
per-batch log line. -/
def commitChunkOk (cfg : Config) (isLast : Bool) (rs : RunState) (c : List Doc) : RunState :=
  logInfoEv
    { live := applyOps rs.live (c.map (delOpOf cfg))
      archive := applyOps rs.archive (c.map (setOpOf cfg))
      trace := rs.trace ++ [Event.commit Sink.archive (c.map (setOpOf cfg)) true] ++
        [Event.commit Sink.source (c.map (delOpOf cfg)) true]
      nextCommit := rs.nextCommit + 1 + 1 }
    ((if isLast then "Archived and deleted the last " else "Archived and deleted ") ++
      toString c.length ++ " documents.")

/-- The loop state whose staged batches hold exactly the documents of the
current accumulator. -/
def stOf (cfg : Config) (rs : RunState) (acc : List Doc) : LoopSt :=
  ⟨rs, acc.map (delOpOf cfg), acc.map (setOpOf cfg), acc.length⟩

/-- The log lines a dry-run loop emits: one line per document, and a count
line each time the counter (currently `k`) reaches `B`. -/
def dryLogs (B : Nat) (k : Nat) : List Doc → List Event
  | [] => []
  | d :: rest =>
    Event.info (dryDocMsg d) ::
      (if k + 1 = B then
        Event.info ("Dry Run: Would archive and delete " ++ toString (k + 1) ++ " documents.") ::
          dryLogs B 0 rest
      else dryLogs B (k + 1) rest)

/-- The value of the `operations` counter after a dry-run loop. -/
def dryOpsLeft (B : Nat) (k : Nat) : List Doc → Nat
  | [] => k
  | _ :: rest =>
    if k + 1 = B then dryOpsLeft B 0 rest else dryOpsLeft B (k + 1) rest

/-- The documents staged by the set operations of a batch. -/
def docsOfOps (ops : List WriteOp) : List Doc :=
  ops.filterMap (fun o =>
    match o with
    | WriteOp.set _ docId data => some ⟨docId, data⟩
    | WriteOp.del _ _ => none)

/-- The batches committed against the archive sink during a run, read back
from its trace. -/
def committedBatches (tr : List Event) : List (List Doc) :=
  (commitEvents tr).filterMap (fun e =>
    match e with
    | (Sink.archive, ops, _) => some (docsOfOps ops)
    | (Sink.source, _, _) => none)

/-- Traces whose commit attempts are complete successful batch pairs:
archive commit then source commit, both successful, repeated. -/
inductive CompletedEvs : List (Sink × List WriteOp × Bool) → Prop
  | nil : CompletedEvs []
  | pair (a b : List WriteOp) (rest : List (Sink × List WriteOp × Bool)) :
      CompletedEvs rest →
      CompletedEvs ((Sink.archive, a, true) :: (Sink.source, b, true) :: rest)

/-- Commit-attempt lists a run can produce: complete successful pairs,
optionally ended by a single failure — either a failed archive commit, or a
successful archive commit followed by a failed source commit.  Nothing
follows a failure. -/
inductive WfEvs : List (Sink × List WriteOp × Bool) → Prop
  | done (l : List (Sink × List WriteOp × Bool)) : CompletedEvs l → WfEvs l
  | failArch (pre : List (Sink × List WriteOp × Bool)) (a : List WriteOp) :
      CompletedEvs pre → WfEvs (pre ++ [(Sink.archive, a, false)])
  | failSrc (pre : List (Sink × List WriteOp × Bool)) (a b : List WriteOp) :
      CompletedEvs pre →
      WfEvs (pre ++ [(Sink.archive, a, true), (Sink.source, b, false)])

/-- The source-commit attempts of a commit-event list. -/
def isSrcEv (e : Sink × List WriteOp × Bool) : Bool :=
  match e.1 with
  | Sink.source => true
  | Sink.archive => false

/-- The successful archive commits of a commit-event list. -/
def isArchOkEv (e : Sink × List WriteOp × Bool) : Bool :=
  match e.1 with
  | Sink.source => false
  | Sink.archive => e.2.2

/-- A concrete document used by the witnesses: identifier `i`, field map
holding only `organization_id = org1`. -/
def wDoc (i : String) : Doc :=
  ⟨i, [("organization_id", "org1")]⟩

/-- A concrete live Firestore holding three matching documents. -/
def wLive : Firestore :=
  [("Organizations", [wDoc "a", wDoc "b", wDoc "c"])]

/-- The initial run state of the witnesses: the live store above, an empty
archive store, an empty trace. -/
def wS0 : RunState :=
  ⟨wLive, [], [], 0⟩

/-- A concrete non-dry configuration with batch size 2. -/
def wCfg : Config :=
  { liveCollection := "Organizations"
    archiveCollection := "archive_Organizations"
    organizationId := "org1"
    batchSize := 2
    isDryRun := false }

/-- The dry-run variant of the witness configuration. -/
def wCfgDry : Config :=
  { wCfg with isDryRun := true }

/-- An oracle whose first commit attempt fails (and all later ones succeed). -/
def envFail : Env :=
  ⟨true, true, [false]⟩

/-- An oracle whose archival query fails. -/
def envQFail : Env :=
  ⟨true, false, []⟩

/-- An oracle whose preflight probe query fails. -/
def envTFail : Env :=
  ⟨false, true, []⟩

@[simp]
theorem commitEvents_nil : commitEvents [] = [] := rfl

@[simp]
theorem commitEvents_cons_info (m : String) (rest : List Event) :
    commitEvents (Event.info m :: rest) = commitEvents rest := rfl

@[simp]
theorem commitEvents_cons_err (m : String) (rest : List Event) :
    commitEvents (Event.err m :: rest) = commitEvents rest := rfl

@[simp]
theorem commitEvents_cons_commit (sink : Sink) (ops : List WriteOp) (ok : Bool)
    (rest : List Event) :
    commitEvents (Event.commit sink ops ok :: rest) = (sink, ops, ok) :: commitEvents rest := rfl

@[simp]
theorem commitEvents_append (t1 t2 : List Event) :
    commitEvents (t1 ++ t2) = commitEvents t1 ++ commitEvents t2 := by
  induction t1 with
  | nil => simp
  | cons e rest ih => cases e <;> simp [ih]

theorem logFold_eq (f : Doc → String) (l : List Doc) :
    ∀ s : RunState,
      l.foldl (fun s d => logInfoEv s (f d)) s =
        { s with trace := s.trace ++ l.map (fun d => Event.info (f d)) } := by
  induction l with
  | nil => intro s; simp [logInfoEv]
  | cons d rest ih =>
    intro s
    simp only [List.foldl_cons, List.map_cons]
    rw [ih]
    simp [logInfoEv]

@[simp]
theorem commitEvents_map_info (f : Doc → String) (l : List Doc) :
    commitEvents (l.map (fun d => Event.info (f d))) = [] := by
  induction l with
  | nil => rfl
  | cons d rest ih => simp [ih]

@[simp]
theorem commitEvents_take_map_info (f : Doc → String) (l : List Doc) :
    ∀ n : Nat, commitEvents ((l.map (fun d => Event.info (f d))).take n) = [] := by
  induction l with
  | nil => intro n; simp
  | cons d rest ih =>
    intro n
    cases n with
    | zero => simp
    | succ m => simpa using ih m

@[simp]
theorem pairEventsOf_append (cfg : Config) (l1 l2 : List (List Doc)) :
    pairEventsOf cfg (l1 ++ l2) = pairEventsOf cfg l1 ++ pairEventsOf cfg l2 := by
  induction l1 with
  | nil => rfl
  | cons c rest ih => simp [pairEventsOf, ih]

theorem CompletedEvs.append_pair {l : List (Sink × List WriteOp × Bool)}
    (h : CompletedEvs l) (a b : List WriteOp) :
    CompletedEvs (l ++ [(Sink.archive, a, true), (Sink.source, b, true)]) := by
  induction h with
  | nil => simpa using CompletedEvs.pair a b [] CompletedEvs.nil
  | pair a2 b2 rest hr ih => simpa using CompletedEvs.pair a2 b2 _ ih

theorem CompletedEvs.all_true {l : List (Sink × List WriteOp × Bool)}
    (h : CompletedEvs l) : ∀ e ∈ l, e.2.2 = true := by
  induction h with
  | nil => simp
  | pair a b rest hr ih =>
    intro e he
    simp only [List.mem_cons] at he
    rcases he with h1 | h1 | h1
    · subst h1; rfl
    · subst h1; rfl
    · exact ih e h1

theorem CompletedEvs.counts_balanced {l : List (Sink × List WriteOp × Bool)}
    (h : CompletedEvs l) :
    (l.filter isSrcEv).length = (l.filter isArchOkEv).length := by
  induction h with
  | nil => rfl
  | pair a b rest hr ih => simp [List.filter_cons, isSrcEv, isArchOkEv, ih]

theorem WfEvs.counts_match {l : List (Sink × List WriteOp × Bool)} (h : WfEvs l) :
    (l.filter isSrcEv).length = (l.filter isArchOkEv).length := by
  cases h with
  | done l hc => exact hc.counts_balanced
  | failArch pre a hc =>
    simp [List.filter_append, List.filter_cons, isSrcEv, isArchOkEv, hc.counts_balanced]
  | failSrc pre a b hc =>
    simp [List.filter_append, List.filter_cons, isSrcEv, isArchOkEv, hc.counts_balanced]

theorem WfEvs.dropLast_true {l : List (Sink × List WriteOp × Bool)} (h : WfEvs l) :
    ∀ e ∈ l.dropLast, e.2.2 = true := by
  cases h with
  | done l hc =>
    intro e he
    exact hc.all_true e (List.dropLast_subset l he)
  | failArch pre a hc =>
    intro e he
    rw [List.dropLast_concat] at he
    exact hc.all_true e he
  | failSrc pre a b hc =>
    intro e he
    rw [show pre ++ [(Sink.archive, a, true), (Sink.source, b, false)]
        = (pre ++ [(Sink.archive, a, true)]) ++ [(Sink.source, b, false)] by simp] at he
    rw [List.dropLast_concat] at he
    rcases List.mem_append.mp he with h1 | h1
    · exact hc.all_true e h1
    · simp only [List.mem_singleton] at h1
      subst h1
      rfl

theorem WfEvs.false_getLast {l : List (Sink × List WriteOp × Bool)} (h : WfEvs l) :
    ∀ e ∈ l, e.2.2 = false → l.getLast? = some e := by
  cases h with
  | done l hc =>
    intro e he hf
    have ht := hc.all_true e he
    rw [hf] at ht
    exact absurd ht (by decide)
  | failArch pre a hc =>
    intro e he hf
    rcases List.mem_append.mp he with h1 | h1
    · have ht := hc.all_true e h1
      rw [hf] at ht
      exact absurd ht (by decide)
    · simp only [List.mem_singleton] at h1
      subst h1
      exact List.getLast?_concat _
  | failSrc pre a b hc =>
    intro e he hf
    rcases List.mem_append.mp he with h1 | h1
    · have ht := hc.all_true e h1
      rw [hf] at ht
      exact absurd ht (by decide)
    · simp only [List.mem_cons, List.not_mem_nil, or_false] at h1
      rcases h1 with h1 | h1
      · subst h1; simp at hf
      · subst h1
        rw [show pre ++ [(Sink.archive, a, true), (Sink.source, b, false)]
            = (pre ++ [(Sink.archive, a, true)]) ++ [(Sink.source, b, false)] by simp]
        exact List.getLast?_concat _

theorem commitBlock_eq_dry (env : Env) (cfg : Config) (st : LoopSt) (isLast : Bool)
    (hd : cfg.isDryRun = true) :
    commitBlock env cfg st isLast = Except.ok (logInfoEv st.rs
      ((if isLast then "Dry Run: Would archive and delete the last "
        else "Dry Run: Would archive and delete ") ++
        toString st.operations ++ " documents.")) := by
  simp [commitBlock, hd]

theorem commitBlock_eq_fail1 (env : Env) (cfg : Config) (st : LoopSt) (isLast : Bool)
    (hd : cfg.isDryRun = false)
    (hok1 : commitOkAt env st.rs.nextCommit = false) :
    commitBlock env cfg st isLast = Except.error
      { st.rs with
          trace := st.rs.trace ++ [Event.commit Sink.archive st.archiveBatch false],
          nextCommit := st.rs.nextCommit + 1 } := by
  simp [commitBlock, attemptCommit, hd, hok1]

theorem commitBlock_eq_fail2 (env : Env) (cfg : Config) (st : LoopSt) (isLast : Bool)
    (hd : cfg.isDryRun = false)
    (hok1 : commitOkAt env st.rs.nextCommit = true)
    (hok2 : commitOkAt env (st.rs.nextCommit + 1) = false) :
    commitBlock env cfg st isLast = Except.error
      { live := st.rs.live
        archive := applyOps st.rs.archive st.archiveBatch
        trace := st.rs.trace ++ [Event.commit Sink.archive st.archiveBatch true] ++
          [Event.commit Sink.source st.batch false]
        nextCommit := st.rs.nextCommit + 1 + 1 } := by
  simp [commitBlock, attemptCommit, hd, hok1, hok2]

theorem commitBlock_eq_ok (env : Env) (cfg : Config) (st : LoopSt) (isLast : Bool)
    (hd : cfg.isDryRun = false)
    (hok1 : commitOkAt env st.rs.nextCommit = true)
    (hok2 : commitOkAt env (st.rs.nextCommit + 1) = true) :
    commitBlock env cfg st isLast = Except.ok (logInfoEv
      { live := applyOps st.rs.live st.batch
        archive := applyOps st.rs.archive st.archiveBatch
        trace := st.rs.trace ++ [Event.commit Sink.archive st.archiveBatch true] ++
          [Event.commit Sink.source st.batch true]
        nextCommit := st.rs.nextCommit + 1 + 1 }
      ((if isLast then "Archived and deleted the last " else "Archived and deleted ") ++
        toString st.operations ++ " documents.")) := by
  simp [commitBlock, attemptCommit, hd, hok1, hok2]

theorem commitBlock_evs (env : Env) (cfg : Config) (st : LoopSt) (isLast : Bool)
    (h : CompletedEvs (commitEvents st.rs.trace)) :
    (∀ s2, commitBlock env cfg st isLast = Except.ok s2 →
      CompletedEvs (commitEvents s2.trace)) ∧
    (∀ s2, commitBlock env cfg st isLast = Except.error s2 →
      WfEvs (commitEvents s2.trace)) := by
  cases hd : cfg.isDryRun with
  | true =>
    rw [commitBlock_eq_dry env cfg st isLast hd]
    constructor
    · intro s2 h2
      cases h2
      simpa [logInfoEv] using h
    · intro s2 h2
      cases h2
  | false =>
    cases hok1 : commitOkAt env st.rs.nextCommit with
    | false =>
      rw [commitBlock_eq_fail1 env cfg st isLast hd hok1]
      constructor
      · intro s2 h2
        cases h2
      · intro s2 h2
        cases h2
        simpa using WfEvs.failArch _ st.archiveBatch h
    | true =>
      cases hok2 : commitOkAt env (st.rs.nextCommit + 1) with
      | false =>
        rw [commitBlock_eq_fail2 env cfg st isLast hd hok1 hok2]
        constructor
        · intro s2 h2
          cases h2
        · intro s2 h2
          cases h2
          simpa using WfEvs.failSrc _ st.archiveBatch st.batch h
      | true =>
        rw [commitBlock_eq_ok env cfg st isLast hd hok1 hok2]
        constructor
        · intro s2 h2
          cases h2
          simpa [logInfoEv] using h.append_pair st.archiveBatch st.batch
        · intro s2 h2
          cases h2

theorem processDocs_evs (env : Env) (cfg : Config) :
    ∀ (docs : List Doc) (st : LoopSt),
      CompletedEvs (commitEvents st.rs.trace) →
      (∀ st2, processDocs env cfg docs st = Except.ok st2 →
        CompletedEvs (commitEvents st2.rs.trace)) ∧
      (∀ s2, processDocs env cfg docs st = Except.error s2 →
        WfEvs (commitEvents s2.trace)) := by
  intro docs
  induction docs with
  | nil =>
    intro st h
    constructor
    · intro st2 h2
      cases h2
      exact h
    · intro s2 h2
      cases h2
  | cons d rest ih =>
    intro st h
    have hstep : ∀ st1 : LoopSt,
        CompletedEvs (commitEvents st1.rs.trace) →
        (∀ st2, (if st1.operations = cfg.batchSize then
            match commitBlock env cfg st1 false with
            | Except.error s => Except.error s
            | Except.ok rs2 => processDocs env cfg rest ⟨rs2, [], [], 0⟩
          else processDocs env cfg rest st1) = Except.ok st2 →
          CompletedEvs (commitEvents st2.rs.trace)) ∧
        (∀ s2, (if st1.operations = cfg.batchSize then
            match commitBlock env cfg st1 false with
            | Except.error s => Except.error s
            | Except.ok rs2 => processDocs env cfg rest ⟨rs2, [], [], 0⟩
          else processDocs env cfg rest st1) = Except.error s2 →
          WfEvs (commitEvents s2.trace)) := by
      intro st1 h1
      by_cases hb : st1.operations = cfg.batchSize
      · simp only [hb, if_true]
        cases hcb : commitBlock env cfg st1 false with
        | error s =>
          simp only [hcb]
          constructor
          · intro st2 h2
            cases h2
          · intro s2 h2
            cases h2
            exact (commitBlock_evs env cfg st1 false h1).2 s hcb
        | ok rs2 =>
          simp only [hcb]
          exact ih ⟨rs2, [], [], 0⟩ ((commitBlock_evs env cfg st1 false h1).1 rs2 hcb)
      · simp only [hb, if_false]
        exact ih st1 h1
    simp only [processDocs]
    apply hstep
    cases hd : cfg.isDryRun with
    | true => simpa [logInfoEv] using h
    | false => simpa using h

theorem run_wf (env : Env) (cfg : Config) (s0 : RunState)
    (h0 : commitEvents s0.trace = []) :
    WfEvs (commitEvents (archiveContactsDocuments env cfg s0).trace) := by
  have hdone : ∀ t : List Event, commitEvents t = [] → WfEvs (commitEvents t) := by
    intro t ht
    rw [ht]
    exact WfEvs.done [] CompletedEvs.nil
  have hs3 : ∀ (l : List Doc) (m1 m2 : String),
      commitEvents ((l.foldl (fun s d => logInfoEv s (docLineMsg d))
        (logInfoEv (logInfoEv s0 m1) m2)).trace) = [] := by
    intro l m1 m2
    rw [logFold_eq]
    simp [logInfoEv, h0]
  have hcomp : ∀ t : List Event, commitEvents t = [] → CompletedEvs (commitEvents t) := by
    intro t ht
    rw [ht]
    exact CompletedEvs.nil
  simp only [archiveContactsDocuments]
  split
  · exact hdone _ (by simp [logInfoEv, logErrEv, h0])
  split
  · exact hdone _ (by simp [logInfoEv, h0])
  split
  next sErr hp =>
    have hw := (processDocs_evs env cfg _ _ (hcomp _ (hs3 _ _ _))).2 sErr hp
    simpa [logErrEv] using hw
  next lst hp =>
    have hlst := (processDocs_evs env cfg _ _ (hcomp _ (hs3 _ _ _))).1 lst hp
    split
    · split
      next sErr2 hcb =>
        have hw := (commitBlock_evs env cfg lst true hlst).2 sErr2 hcb
        simpa [logErrEv] using hw
      next s4 hcb =>
        have hc4 := (commitBlock_evs env cfg lst true hlst).1 s4 hcb
        refine WfEvs.done _ ?_
        simpa [logInfoEv] using hc4
    · refine WfEvs.done _ ?_
      simpa [logInfoEv] using hlst

theorem commitOkAt_envOk (i : Nat) : commitOkAt envOk i = true := by
  simp [commitOkAt, envOk, List.getD]

theorem commitBlock_envOk (cfg : Config) (hd : cfg.isDryRun = false) (isLast : Bool)
    (rs : RunState) (c : List Doc) :
    commitBlock envOk cfg (stOf cfg rs c) isLast =
      Except.ok (commitChunkOk cfg isLast rs c) := by
  rw [commitBlock_eq_ok envOk cfg _ isLast hd (commitOkAt_envOk _) (commitOkAt_envOk _)]
  rfl

theorem processDocs_envOk (cfg : Config) (hd : cfg.isDryRun = false) :
    ∀ (docs acc : List Doc) (rs : RunState),
      processDocs envOk cfg docs (stOf cfg rs acc) =
        Except.ok (stOf cfg
          ((fullChunksAux cfg.batchSize acc docs).foldl (commitChunkOk cfg false) rs)
          (lastAccAux cfg.batchSize acc docs)) := by
  intro docs
  induction docs with
  | nil =>
    intro acc rs
    simp [processDocs, fullChunksAux, lastAccAux]
  | cons d rest ih =>
    intro acc rs
    have hst1 :
        ({ stOf cfg rs acc with
            batch := (stOf cfg rs acc).batch ++ [WriteOp.del cfg.liveCollection d.id],
            archiveBatch := (stOf cfg rs acc).archiveBatch ++
              [WriteOp.set cfg.archiveCollection d.id d.data],
            operations := (stOf cfg rs acc).operations + 1 } : LoopSt)
          = stOf cfg rs (acc ++ [d]) := by
      simp [stOf, setOpOf, delOpOf]
    simp only [processDocs, hd, Bool.false_eq_true, if_false, hst1]
    by_cases hb : acc.length + 1 = cfg.batchSize
    · have hb2 : (stOf cfg rs (acc ++ [d])).operations = cfg.batchSize := by
        simpa [stOf] using hb
      rw [if_pos hb2, commitBlock_envOk cfg hd false rs (acc ++ [d])]
      simp only [fullChunksAux, lastAccAux, hb, if_pos, List.foldl_cons]
      exact ih [] (commitChunkOk cfg false rs (acc ++ [d]))
    · have hb2 : ¬((stOf cfg rs (acc ++ [d])).operations = cfg.batchSize) := by
        simpa [stOf] using hb
      rw [if_neg hb2]
      simp only [fullChunksAux, lastAccAux, hb, if_neg, if_false]
      exact ih (acc ++ [d]) rs

theorem foldl_commitChunkOk_trace (cfg : Config) :
    ∀ (chunks : List (List Doc)) (rs : RunState),
      commitEvents ((chunks.foldl (commitChunkOk cfg false) rs).trace) =
        commitEvents rs.trace ++ pairEventsOf cfg chunks := by
  intro chunks
  induction chunks with
  | nil => intro rs; simp [pairEventsOf]
  | cons c rest ih =>
    intro rs
    simp only [List.foldl_cons]
    rw [ih]
    simp [commitChunkOk, logInfoEv, pairEventsOf]

theorem afterQuery_commitEvents (cfg : Config) (hd : cfg.isDryRun = false)
    (docs : List Doc) (s3 : RunState) (h3 : commitEvents s3.trace = []) :
    commitEvents ((match processDocs envOk cfg docs ⟨s3, [], [], 0⟩ with
      | Except.error sErr => logErrEv sErr "Error during archival process:"
      | Except.ok lst =>
        if lst.operations > 0 then
          match commitBlock envOk cfg lst true with
          | Except.error sErr => logErrEv sErr "Error during archival process:"
          | Except.ok s4 => logInfoEv s4 "Archival process completed successfully."
        else
          logInfoEv lst.rs "Archival process completed successfully.").trace) =
      pairEventsOf cfg (chunksOf cfg.batchSize docs) := by
  have h1 : (⟨s3, [], [], 0⟩ : LoopSt) = stOf cfg s3 [] := rfl
  rw [h1, processDocs_envOk cfg hd docs [] s3]
  have hfull := foldl_commitChunkOk_trace cfg (fullChunksAux cfg.batchSize [] docs) s3
  rw [h3] at hfull
  by_cases hl : (lastAccAux cfg.batchSize [] docs).length > 0
  · have hop : (stOf cfg
        ((fullChunksAux cfg.batchSize [] docs).foldl (commitChunkOk cfg false) s3)
        (lastAccAux cfg.batchSize [] docs)).operations > 0 := hl
    have hne : (lastAccAux cfg.batchSize [] docs).isEmpty = false := by
      cases hacc : lastAccAux cfg.batchSize [] docs with
      | nil => rw [hacc] at hl; simp at hl
      | cons x xs => rfl
    dsimp only
    rw [if_pos hop, commitBlock_envOk cfg hd true _ _]
    dsimp only
    simp only [logInfoEv, commitChunkOk, chunksOf, hne]
    simp [pairEventsOf, hfull]
  · have hop : ¬((stOf cfg
        ((fullChunksAux cfg.batchSize [] docs).foldl (commitChunkOk cfg false) s3)
        (lastAccAux cfg.batchSize [] docs)).operations > 0) := hl
    have hemp : (lastAccAux cfg.batchSize [] docs).isEmpty = true := by
      cases hacc : lastAccAux cfg.batchSize [] docs with
      | nil => rfl
      | cons x xs => rw [hacc] at hl; simp at hl
    dsimp only
    rw [if_neg hop]
    simp only [logInfoEv, chunksOf, hemp]
    simp [stOf, hfull]

theorem fullChunksAux_length (B : Nat) (hB : 0 < B) :
    ∀ (l acc : List Doc), acc.length < B →
      (fullChunksAux B acc l).length = (acc.length + l.length) / B := by
  intro l
  induction l with
  | nil =>
    intro acc ha
    simp [fullChunksAux, Nat.div_eq_of_lt ha]
  | cons d rest ih =>
    intro acc ha
    by_cases hb : acc.length + 1 = B
    · simp only [fullChunksAux, hb, if_pos, List.length_cons]
      rw [ih [] (by simpa using hB)]
      have h2 : acc.length + (rest.length + 1) = rest.length + B := by omega
      simp only [List.length_cons, h2]
      rw [Nat.add_div_right _ hB]
      simp
    · simp only [fullChunksAux, hb, if_false, if_neg hb]
      rw [ih (acc ++ [d]) (by simp; omega)]
      congr 1
      simp
      omega

theorem lastAccAux_length (B : Nat) (hB : 0 < B) :
    ∀ (l acc : List Doc), acc.length < B →
      (lastAccAux B acc l).length = (acc.length + l.length) % B := by
  intro l
  induction l with
  | nil =>
    intro acc ha
    simp [lastAccAux, Nat.mod_eq_of_lt ha]
  | cons d rest ih =>
    intro acc ha
    by_cases hb : acc.length + 1 = B
    · simp only [lastAccAux, hb, if_pos]
      rw [ih [] (by simpa using hB)]
      have h2 : acc.length + (rest.length + 1) = rest.length + B := by omega
      simp only [List.length_cons, h2]
      rw [Nat.add_mod_right]
      simp
    · simp only [lastAccAux, hb, if_false, if_neg hb]
      rw [ih (acc ++ [d]) (by simp; omega)]
      congr 1
      simp
      omega

theorem fullChunksAux_join (B : Nat) :
    ∀ (l acc : List Doc),
      (fullChunksAux B acc l).flatten ++ lastAccAux B acc l = acc ++ l := by
  intro l
  induction l with
  | nil => intro acc; simp [fullChunksAux, lastAccAux]
  | cons d rest ih =>
    intro acc
    by_cases hb : acc.length + 1 = B
    · simp only [fullChunksAux, lastAccAux, hb, if_pos, List.flatten_cons]
      rw [List.append_assoc, ih []]
      simp
    · simp only [fullChunksAux, lastAccAux, hb, if_false, if_neg hb]
      rw [ih (acc ++ [d])]
      simp

theorem fullChunksAux_mem_length (B : Nat) (hB : 0 < B) :
    ∀ (l acc : List Doc), acc.length < B →
      ∀ c ∈ fullChunksAux B acc l, c.length = B := by
  intro l
  induction l with
  | nil =>
    intro acc ha c hc
    simp [fullChunksAux] at hc
  | cons d rest ih =>
    intro acc ha c hc
    by_cases hb : acc.length + 1 = B
    · simp only [fullChunksAux, hb, if_pos, List.mem_cons] at hc
      rcases hc with hc | hc
      · subst hc; simp; omega
      · exact ih [] (by simpa using hB) c hc
    · simp only [fullChunksAux, hb, if_neg hb] at hc
      exact ih (acc ++ [d]) (by simp; omega) c hc

theorem ceil_div_eq (N B : Nat) (hB : 0 < B) :
    N / B + (if N % B = 0 then 0 else 1) = (N + B - 1) / B := by
  have hq : B * (N / B) + N % B = N := Nat.div_add_mod N B
  by_cases h : N % B = 0
  · rw [h, Nat.add_zero] at hq
    rw [h, if_pos rfl, Nat.add_zero]
    conv_rhs => rw [← hq]
    rw [Nat.add_sub_assoc hB, Nat.mul_add_div hB,
      Nat.div_eq_of_lt (Nat.sub_lt hB Nat.one_pos), Nat.add_zero]
  · rw [if_neg h]
    have hr : N % B < B := Nat.mod_lt _ hB
    have hr1 : 1 ≤ N % B := Nat.one_le_iff_ne_zero.mpr h
    conv_rhs => rw [← hq]
    have key : B * (N / B) + N % B + B - 1 = B * (N / B) + (B + (N % B - 1)) := by
      rw [Nat.add_assoc, Nat.add_sub_assoc (by omega : 1 ≤ N % B + B)]
      congr 1
      omega
    rw [key, show B * (N / B) + (B + (N % B - 1)) = B * (N / B) + B + (N % B - 1) from
        (Nat.add_assoc _ _ _).symm,
      show B * (N / B) + B = B * (N / B + 1) by ring,
      Nat.mul_add_div hB, Nat.div_eq_of_lt (show N % B - 1 < B by omega), Nat.add_zero]

theorem run_commitEvents (cfg : Config) (s0 : RunState) (hd : cfg.isDryRun = false)
    (h0 : commitEvents s0.trace = []) :
    commitEvents (archiveContactsDocuments envOk cfg s0).trace =
      pairEventsOf cfg (chunksOf cfg.batchSize
        (queryByOrg s0.live cfg.liveCollection cfg.organizationId)) := by
  simp only [archiveContactsDocuments]
  split
  next hq => exact absurd hq (by simp [envOk])
  split
  next he =>
    have hnil : queryByOrg s0.live cfg.liveCollection cfg.organizationId = [] := by
      simpa [logInfoEv] using he
    rw [hnil]
    simp [logInfoEv, h0, chunksOf, fullChunksAux, lastAccAux, pairEventsOf]
  next he =>
    have h3 : commitEvents (((queryByOrg (logInfoEv s0 (startMsg cfg)).live
        cfg.liveCollection cfg.organizationId).take 5).foldl
          (fun s d => logInfoEv s (docLineMsg d))
          (logInfoEv (logInfoEv s0 (startMsg cfg))
            ("Found " ++ toString (queryByOrg (logInfoEv s0 (startMsg cfg)).live
              cfg.liveCollection cfg.organizationId).length ++
              " documents to archive."))).trace = [] := by
      rw [logFold_eq]
      simp [logInfoEv, h0]
    exact afterQuery_commitEvents cfg hd _ _ h3

theorem archive_terminal (env : Env) (cfg : Config) (s0 : RunState) :
    (archiveContactsDocuments env cfg s0).trace.getLast? =
        some (Event.info "Archival process completed successfully.") ∨
    (archiveContactsDocuments env cfg s0).trace.getLast? =
        some (Event.info "No documents match the archival criteria.") ∨
    (archiveContactsDocuments env cfg s0).trace.getLast? =
        some (Event.err "Error during archival process:") := by
  simp only [archiveContactsDocuments]
  split
  · right; right
    simp [logErrEv, List.getLast?_concat]
  split
  · right; left
    simp [logInfoEv, List.getLast?_concat]
  split
  next sErr hp =>
    right; right
    simp [logErrEv, List.getLast?_concat]
  next lst hp =>
    split
    · split
      next sErr2 hcb =>
        right; right
        simp [logErrEv, List.getLast?_concat]
      next s4 hcb =>
        left
        simp [logInfoEv, List.getLast?_concat]
    · left
      simp [logInfoEv, List.getLast?_concat]

theorem lastAccAux_nil_of_isEmpty {B : Nat} {l : List Doc}
    (he : (lastAccAux B [] l).isEmpty = true) : lastAccAux B [] l = [] := by
  cases hacc : lastAccAux B [] l with
  | nil => rfl
  | cons x xs => rw [hacc] at he; simp at he

theorem chunksOf_join (B : Nat) (l : List Doc) :
    (chunksOf B l).flatten = l := by
  unfold chunksOf
  have hj := fullChunksAux_join B l []
  by_cases he : (lastAccAux B [] l).isEmpty
  · rw [lastAccAux_nil_of_isEmpty he] at hj
    simp only [he, if_true, List.append_nil]
    simpa using hj
  · simp only [he, if_false, Bool.false_eq_true, List.flatten_append]
    simpa using hj

theorem chunksOf_mem_size (B : Nat) (hB : 0 < B) (l : List Doc) :
    ∀ c ∈ chunksOf B l, 1 ≤ c.length ∧ c.length ≤ B := by
  intro c hc
  unfold chunksOf at hc
  rcases List.mem_append.mp hc with h1 | h1
  · have hcl := fullChunksAux_mem_length B hB l [] (by simpa using hB) c h1
    omega
  · by_cases he : (lastAccAux B [] l).isEmpty
    · rw [if_pos he] at h1
      simp at h1
    · rw [if_neg he] at h1
      simp only [List.mem_singleton] at h1
      subst h1
      have hlen := lastAccAux_length B hB l [] (by simpa using hB)
      have hne : lastAccAux B [] l ≠ [] := by
        intro hcon
        rw [hcon] at he
        simp at he
      have h1le : 1 ≤ (lastAccAux B [] l).length := by
        cases hacc : lastAccAux B [] l with
        | nil => exact absurd hacc hne
        | cons x xs => simp
      have hmod : (List.length ([] : List Doc) + l.length) % B < B := Nat.mod_lt _ hB
      exact ⟨h1le, by omega⟩

theorem chunksOf_length (B : Nat) (hB : 0 < B) (l : List Doc) :
    (chunksOf B l).length = (l.length + B - 1) / B := by
  unfold chunksOf
  have hfl := fullChunksAux_length B hB l [] (by simpa using hB)
  have hll := lastAccAux_length B hB l [] (by simpa using hB)
  rw [← ceil_div_eq l.length B hB]
  by_cases hm : l.length % B = 0
  · have hemp : (lastAccAux B [] l).isEmpty = true := by
      have hz : (lastAccAux B [] l).length = 0 := by
        rw [hll]
        simpa using hm
      cases hacc : lastAccAux B [] l with
      | nil => rfl
      | cons x xs => rw [hacc] at hz; simp at hz
    simp [hemp, hfl, hm]
  · have hemp : (lastAccAux B [] l).isEmpty = false := by
      cases hacc : lastAccAux B [] l with
      | nil =>
        rw [hacc] at hll
        simp at hll
        omega
      | cons x xs => rfl
    simp [hemp, hfl, hm]

theorem chunksOf_getLast (B : Nat) (hB : 0 < B) (l : List Doc) (hl : l ≠ []) :
    ∃ c, (chunksOf B l).getLast? = some c ∧
      c.length = (if l.length % B = 0 then B else l.length % B) := by
  unfold chunksOf
  have hll := lastAccAux_length B hB l [] (by simpa using hB)
  by_cases hm : l.length % B = 0
  · have hemp : (lastAccAux B [] l).isEmpty = true := by
      have hz : (lastAccAux B [] l).length = 0 := by
        rw [hll]
        simpa using hm
      cases hacc : lastAccAux B [] l with
      | nil => rfl
      | cons x xs => rw [hacc] at hz; simp at hz
    simp only [hemp, if_true, List.append_nil]
    have hlen := fullChunksAux_length B hB l [] (by simpa using hB)
    have hBle : B ≤ l.length :=
      Nat.le_of_dvd (List.length_pos.mpr hl) (Nat.dvd_of_mod_eq_zero hm)
    have h09 : 1 ≤ (fullChunksAux B [] l).length := by
      rw [hlen]
      simpa using (Nat.one_le_div_iff hB).mpr (by simpa using hBle)
    have hne : fullChunksAux B [] l ≠ [] := by
      intro hcon
      rw [hcon] at h09
      simp at h09
    refine ⟨(fullChunksAux B [] l).getLast hne, List.getLast?_eq_getLast _ hne, ?_⟩
    rw [if_pos hm]
    exact fullChunksAux_mem_length B hB l [] (by simpa using hB) _ (List.getLast_mem hne)
  · have hemp : (lastAccAux B [] l).isEmpty = false := by
      cases hacc : lastAccAux B [] l with
      | nil =>
        rw [hacc] at hll
        simp at hll
        omega
      | cons x xs => rfl
    simp only [hemp, Bool.false_eq_true, if_false]
    refine ⟨lastAccAux B [] l, List.getLast?_concat _, ?_⟩
    rw [if_neg hm, hll]
    simp

theorem docsOfOps_map_set (cfg : Config) (c : List Doc) :
    docsOfOps (c.map (setOpOf cfg)) = c := by
  induction c with
  | nil => rfl
  | cons d rest ih =>
    simp only [List.map_cons, docsOfOps, List.filterMap_cons, setOpOf]
    simpa [docsOfOps, setOpOf] using ih

theorem pairEventsOf_batches (cfg : Config) :
    ∀ chunks : List (List Doc),
      (pairEventsOf cfg chunks).filterMap (fun e =>
        match e with
        | (Sink.archive, ops, _) => some (docsOfOps ops)
        | (Sink.source, _, _) => none) = chunks := by
  intro chunks
  induction chunks with
  | nil => rfl
  | cons c rest ih =>
    simp only [pairEventsOf, List.filterMap_cons]
    simpa [docsOfOps_map_set] using ih

theorem processDocs_dry (env : Env) (cfg : Config) (hd : cfg.isDryRun = true) :
    ∀ (docs : List Doc) (rs : RunState) (k : Nat),
      processDocs env cfg docs ⟨rs, [], [], k⟩ =
        Except.ok ⟨{ rs with trace := rs.trace ++ dryLogs cfg.batchSize k docs }, [], [],
          dryOpsLeft cfg.batchSize k docs⟩ := by
  intro docs
  induction docs with
  | nil =>
    intro rs k
    simp [processDocs, dryLogs, dryOpsLeft]
  | cons d rest ih =>
    intro rs k
    simp only [processDocs, hd, eq_self_iff_true, if_true]
    by_cases hb : k + 1 = cfg.batchSize
    · rw [if_pos hb, commitBlock_eq_dry env cfg _ false hd]
      dsimp only
      rw [ih _ 0]
      simp [logInfoEv, dryLogs, dryOpsLeft, hb]
    · rw [if_neg hb]
      rw [ih _ (k + 1)]
      simp [logInfoEv, dryLogs, dryOpsLeft, hb]

theorem commitEvents_dryLogs (B : Nat) :
    ∀ (docs : List Doc) (k : Nat), commitEvents (dryLogs B k docs) = [] := by
  intro docs
  induction docs with
  | nil => intro k; rfl
  | cons d rest ih =>
    intro k
    by_cases hb : k + 1 = B
    · simp [dryLogs, hb, ih]
    · simp [dryLogs, hb, ih]

theorem dryLogs_mem (B : Nat) :
    ∀ (docs : List Doc) (k : Nat) (d : Doc), d ∈ docs →
      Event.info (dryDocMsg d) ∈ dryLogs B k docs := by
  intro docs
  induction docs with
  | nil =>
    intro k d hd2
    simp at hd2
  | cons d2 rest ih =>
    intro k d hd2
    rcases List.mem_cons.mp hd2 with h | h
    · subst h
      by_cases hb : k + 1 = B <;> simp [dryLogs, hb]
    · by_cases hb : k + 1 = B
      · simp only [dryLogs, hb, if_pos, List.mem_cons]
        exact Or.inr (Or.inr (ih 0 d h))
      · simp only [dryLogs, hb, if_neg hb, List.mem_cons]
        exact Or.inr (ih (k + 1) d h)

theorem afterQuery_dry (env : Env) (cfg : Config) (hd : cfg.isDryRun = true)
    (docs : List Doc) (s3 : RunState) :
    (match processDocs env cfg docs ⟨s3, [], [], 0⟩ with
      | Except.error sErr => logErrEv sErr "Error during archival process:"
      | Except.ok lst =>
        if lst.operations > 0 then
          match commitBlock env cfg lst true with
          | Except.error sErr => logErrEv sErr "Error during archival process:"
          | Except.ok s4 => logInfoEv s4 "Archival process completed successfully."
        else
          logInfoEv lst.rs "Archival process completed successfully.") =
      { s3 with trace := s3.trace ++ dryLogs cfg.batchSize 0 docs ++
          (if dryOpsLeft cfg.batchSize 0 docs > 0 then
            [Event.info ("Dry Run: Would archive and delete the last " ++
              toString (dryOpsLeft cfg.batchSize 0 docs) ++ " documents.")]
          else []) ++ [Event.info "Archival process completed successfully."] } := by
  rw [processDocs_dry env cfg hd docs s3 0]
  dsimp only
  by_cases hop : dryOpsLeft cfg.batchSize 0 docs > 0
  · rw [if_pos hop, commitBlock_eq_dry env cfg _ true hd]
    dsimp only
    simp [logInfoEv, hop]
  · rw [if_neg hop]
    simp [logInfoEv, hop]

theorem run_dry (env : Env) (cfg : Config) (s0 : RunState) (hd : cfg.isDryRun = true) :
    (archiveContactsDocuments env cfg s0).live = s0.live ∧
    (archiveContactsDocuments env cfg s0).archive = s0.archive ∧
    commitEvents (archiveContactsDocuments env cfg s0).trace = commitEvents s0.trace ∧
    (env.queryOk = true →
      ∀ d ∈ queryByOrg s0.live cfg.liveCollection cfg.organizationId,
        Event.info (dryDocMsg d) ∈ (archiveContactsDocuments env cfg s0).trace) := by
  simp only [archiveContactsDocuments]
  split
  next hq =>
    refine ⟨rfl, rfl, by simp [logInfoEv, logErrEv], ?_⟩
    intro hq2
    rw [hq2] at hq
    simp at hq
  split
  next he =>
    refine ⟨rfl, rfl, by simp [logInfoEv], ?_⟩
    intro hq2 d hdm
    have hnil : queryByOrg s0.live cfg.liveCollection cfg.organizationId = [] := by
      simpa [logInfoEv] using he
    rw [hnil] at hdm
    simp at hdm
  next he =>
    rw [logFold_eq, afterQuery_dry env cfg hd]
    refine ⟨by simp [logInfoEv], by simp [logInfoEv], ?_, ?_⟩
    · simp [logInfoEv, commitEvents_dryLogs]
      split <;> rfl
    · intro hq2 d hdm
      have hm := dryLogs_mem cfg.batchSize
        (queryByOrg s0.live cfg.liveCollection cfg.organizationId) 0 d hdm
      simp only [logInfoEv, List.mem_append]
      tauto

theorem run_committedBatches (cfg : Config) (s0 : RunState) (hd : cfg.isDryRun = false)
    (h0 : commitEvents s0.trace = []) :
    committedBatches (archiveContactsDocuments envOk cfg s0).trace =
      chunksOf cfg.batchSize (queryByOrg s0.live cfg.liveCollection cfg.organizationId) := by
  unfold committedBatches
  rw [run_commitEvents cfg s0 hd h0]
  exact pairEventsOf_batches cfg _

theorem mainRun_terminal (env : Env) (argv : Argv) (s0 : RunState) :
    (mainRun env argv s0).trace.getLast? =
        some (Event.info "No documents found. Exiting archival process.") ∨
    (mainRun env argv s0).trace.getLast? =
        some (Event.info "Archival process completed successfully.") ∨
    (mainRun env argv s0).trace.getLast? =
        some (Event.info "No documents match the archival criteria.") ∨
    (mainRun env argv s0).trace.getLast? =
        some (Event.err "Error during archival process:") := by
  simp only [mainRun]
  split
  next s2 hm =>
    left
    simp [logInfoEv, List.getLast?_concat]
  next s2 hm =>
    have ht := archive_terminal env (mainConfig argv)
      (if jsTruthy argv.dryRun then
        logInfoEv s2 "Dry run mode enabled. No documents will be archived or deleted."
      else s2)
    tauto

/-- Claim C1, counterexample.  The claim states that in a non-dry run, when a
batch's archive-write commit fails, the source-delete commit for that batch
is still attempted.  In this concrete non-dry run (three matching documents,
batch size 2, first commit attempt failing) the trace records exactly one
commit attempt: the failed archive commit of the first batch.  No source
commit appears anywhere in the trace, so the delete commit was not
attempted. -/
theorem c1_counterexample :
    commitEvents (archiveContactsDocuments envFail wCfg wS0).trace =
      [(Sink.archive,
        [WriteOp.set "archive_Organizations" "a" [("organization_id", "org1")],
         WriteOp.set "archive_Organizations" "b" [("organization_id", "org1")]], false)] ∧
    ∀ e ∈ commitEvents (archiveContactsDocuments envFail wCfg wS0).trace,
      e.1 = Sink.archive := by
  constructor
  · rfl
  · decide

/-- Claim C1, amended.  In a run from a fresh trace, a source-delete commit
is attempted exactly once per successful archive-write commit (so when a
batch's archive commit fails, that batch's delete commit is never
attempted), and any failed commit attempt is the last commit attempt of the
run, the raised error being handled by the top-level catch. -/
theorem c1_delete_only_after_archive_success (env : Env) (cfg : Config) (s0 : RunState)
    (h0 : commitEvents s0.trace = []) :
    ((commitEvents (archiveContactsDocuments env cfg s0).trace).filter isSrcEv).length =
      ((commitEvents (archiveContactsDocuments env cfg s0).trace).filter isArchOkEv).length ∧
    (∀ e ∈ commitEvents (archiveContactsDocuments env cfg s0).trace, e.2.2 = false →
      (commitEvents (archiveContactsDocuments env cfg s0).trace).getLast? = some e) :=
  ⟨(run_wf env cfg s0 h0).counts_match, (run_wf env cfg s0 h0).false_getLast⟩

theorem c1_delete_only_after_archive_success_witness :
    commitEvents wS0.trace = [] ∧
    (((commitEvents (archiveContactsDocuments envFail wCfg wS0).trace).filter isSrcEv).length =
      ((commitEvents (archiveContactsDocuments envFail wCfg wS0).trace).filter
        isArchOkEv).length ∧
    (∀ e ∈ commitEvents (archiveContactsDocuments envFail wCfg wS0).trace, e.2.2 = false →
      (commitEvents (archiveContactsDocuments envFail wCfg wS0).trace).getLast? = some e)) :=
  ⟨rfl, c1_delete_only_after_archive_success envFail wCfg wS0 rfl⟩

/-- Claim C2.  In a non-dry run from a fresh trace in which every external
call succeeds, with batch size B >= 1 and N >= 1 matched records, the run
commits exactly ceil(N / B) = (N + B - 1) / B batches, and the last
committed batch has size B when B divides N and size N mod B otherwise. -/
theorem c2_batch_count_and_last_size (cfg : Config) (s0 : RunState)
    (hd : cfg.isDryRun = false) (hB : 1 ≤ cfg.batchSize)
    (h0 : commitEvents s0.trace = [])
    (hN : 1 ≤ (queryByOrg s0.live cfg.liveCollection cfg.organizationId).length) :
    (committedBatches (archiveContactsDocuments envOk cfg s0).trace).length =
      ((queryByOrg s0.live cfg.liveCollection cfg.organizationId).length +
        cfg.batchSize - 1) / cfg.batchSize ∧
    ((committedBatches (archiveContactsDocuments envOk cfg s0).trace).getLast?).map
        List.length =
      some (if (queryByOrg s0.live cfg.liveCollection cfg.organizationId).length %
            cfg.batchSize = 0 then cfg.batchSize
        else (queryByOrg s0.live cfg.liveCollection cfg.organizationId).length %
          cfg.batchSize) := by
  rw [run_committedBatches cfg s0 hd h0]
  have hl : queryByOrg s0.live cfg.liveCollection cfg.organizationId ≠ [] := by
    intro hcon
    rw [hcon] at hN
    simp at hN
  obtain ⟨c, hc1, hc2⟩ := chunksOf_getLast cfg.batchSize hB _ hl
  refine ⟨chunksOf_length cfg.batchSize hB _, ?_⟩
  rw [hc1]
  simp [hc2]

theorem c2_batch_count_and_last_size_witness :
    wCfg.isDryRun = false ∧ 1 ≤ wCfg.batchSize ∧ commitEvents wS0.trace = [] ∧
    1 ≤ (queryByOrg wS0.live wCfg.liveCollection wCfg.organizationId).length ∧
    ((committedBatches (archiveContactsDocuments envOk wCfg wS0).trace).length =
      ((queryByOrg wS0.live wCfg.liveCollection wCfg.organizationId).length +
        wCfg.batchSize - 1) / wCfg.batchSize ∧
    ((committedBatches (archiveContactsDocuments envOk wCfg wS0).trace).getLast?).map
        List.length =
      some (if (queryByOrg wS0.live wCfg.liveCollection wCfg.organizationId).length %
            wCfg.batchSize = 0 then wCfg.batchSize
        else (queryByOrg wS0.live wCfg.liveCollection wCfg.organizationId).length %
          wCfg.batchSize)) :=
  ⟨rfl, by decide, rfl, by decide,
    c2_batch_count_and_last_size wCfg wS0 rfl (by decide) rfl (by decide)⟩

/-- Claim C3.  In a non-dry run from a fresh trace in which every external
call succeeds, with batch size >= 1, the committed batches concatenate to
exactly the matched records in query order (so each record appears in
exactly one batch and the batches are pairwise disjoint), and every
committed batch b satisfies 1 <= |b| <= batchSize. -/
theorem c3_partition (cfg : Config) (s0 : RunState)
    (hd : cfg.isDryRun = false) (hB : 1 ≤ cfg.batchSize)
    (h0 : commitEvents s0.trace = []) :
    (committedBatches (archiveContactsDocuments envOk cfg s0).trace).flatten =
      queryByOrg s0.live cfg.liveCollection cfg.organizationId ∧
    ∀ b ∈ committedBatches (archiveContactsDocuments envOk cfg s0).trace,
      1 ≤ b.length ∧ b.length ≤ cfg.batchSize := by
  rw [run_committedBatches cfg s0 hd h0]
  exact ⟨chunksOf_join _ _, chunksOf_mem_size _ hB _⟩

theorem c3_partition_witness :
    wCfg.isDryRun = false ∧ 1 ≤ wCfg.batchSize ∧ commitEvents wS0.trace = [] ∧
    ((committedBatches (archiveContactsDocuments envOk wCfg wS0).trace).flatten =
      queryByOrg wS0.live wCfg.liveCollection wCfg.organizationId ∧
    ∀ b ∈ committedBatches (archiveContactsDocuments envOk wCfg wS0).trace,
      1 ≤ b.length ∧ b.length ≤ wCfg.batchSize) :=
  ⟨rfl, by decide, rfl, c3_partition wCfg wS0 rfl (by decide) rfl⟩

/-- Claim C4.  When isDryRun is true, for every oracle, configuration and
initial state: the live and archive stores are unchanged by the run, no
commit is attempted against either sink, and (when the query succeeds) a log
line "Dry Run: Would archive and delete Document ID: <id>" is emitted for
every matched record's identifier. -/
theorem c4_dry_run (env : Env) (cfg : Config) (s0 : RunState) (hd : cfg.isDryRun = true) :
    (archiveContactsDocuments env cfg s0).live = s0.live ∧
    (archiveContactsDocuments env cfg s0).archive = s0.archive ∧
    commitEvents (archiveContactsDocuments env cfg s0).trace = commitEvents s0.trace ∧
    (env.queryOk = true →
      ∀ d ∈ queryByOrg s0.live cfg.liveCollection cfg.organizationId,
        Event.info ("Dry Run: Would archive and delete Document ID: " ++ d.id) ∈
          (archiveContactsDocuments env cfg s0).trace) :=
  run_dry env cfg s0 hd

theorem c4_dry_run_witness :
    wCfgDry.isDryRun = true ∧
    ((archiveContactsDocuments envOk wCfgDry wS0).live = wS0.live ∧
    (archiveContactsDocuments envOk wCfgDry wS0).archive = wS0.archive ∧
    commitEvents (archiveContactsDocuments envOk wCfgDry wS0).trace =
      commitEvents wS0.trace ∧
    (envOk.queryOk = true →
      ∀ d ∈ queryByOrg wS0.live wCfgDry.liveCollection wCfgDry.organizationId,
        Event.info ("Dry Run: Would archive and delete Document ID: " ++ d.id) ∈
          (archiveContactsDocuments envOk wCfgDry wS0).trace)) :=
  ⟨rfl, c4_dry_run envOk wCfgDry wS0 rfl⟩

/-- Claim C5.  For every oracle, configuration and initial state with a
fresh trace: the archival function returns normally (it is a total function
here), its trace ends either in the success log line, the no-match log line,
or the caught-error log line "Error during archival process:", and every
commit attempt other than the last one succeeded — so after the first commit
error no further batch commit is attempted in that run. -/
theorem c5_error_handling (env : Env) (cfg : Config) (s0 : RunState)
    (h0 : commitEvents s0.trace = []) :
    ((archiveContactsDocuments env cfg s0).trace.getLast? =
        some (Event.info "Archival process completed successfully.") ∨
     (archiveContactsDocuments env cfg s0).trace.getLast? =
        some (Event.info "No documents match the archival criteria.") ∨
     (archiveContactsDocuments env cfg s0).trace.getLast? =
        some (Event.err "Error during archival process:")) ∧
    (∀ e ∈ (commitEvents (archiveContactsDocuments env cfg s0).trace).dropLast,
      e.2.2 = true) :=
  ⟨archive_terminal env cfg s0, (run_wf env cfg s0 h0).dropLast_true⟩

theorem c5_error_handling_witness :
    commitEvents wS0.trace = [] ∧
    (((archiveContactsDocuments envFail wCfg wS0).trace.getLast? =
        some (Event.info "Archival process completed successfully.") ∨
     (archiveContactsDocuments envFail wCfg wS0).trace.getLast? =
        some (Event.info "No documents match the archival criteria.") ∨
     (archiveContactsDocuments envFail wCfg wS0).trace.getLast? =
        some (Event.err "Error during archival process:")) ∧
    (∀ e ∈ (commitEvents (archiveContactsDocuments envFail wCfg wS0).trace).dropLast,
      e.2.2 = true)) :=
  ⟨rfl, c5_error_handling envFail wCfg wS0 rfl⟩

/-- Claim C6.  In a non-dry run from a fresh trace in which every external
call succeeds, the commit attempts of the run are exactly, in order: for
each batch in batch order, the archive-write commit of that batch's staged
sets immediately followed by the source-delete commit of that batch's staged
deletes.  In particular the archive commit of each batch precedes its delete
commit, and both commits of a batch precede every commit of the next
batch. -/
theorem c6_commit_order (cfg : Config) (s0 : RunState)
    (hd : cfg.isDryRun = false) (h0 : commitEvents s0.trace = []) :
    commitEvents (archiveContactsDocuments envOk cfg s0).trace =
      pairEventsOf cfg (chunksOf cfg.batchSize
        (queryByOrg s0.live cfg.liveCollection cfg.organizationId)) :=
  run_commitEvents cfg s0 hd h0

theorem c6_commit_order_witness :
    wCfg.isDryRun = false ∧ commitEvents wS0.trace = [] ∧
    commitEvents (archiveContactsDocuments envOk wCfg wS0).trace =
      pairEventsOf wCfg (chunksOf wCfg.batchSize
        (queryByOrg wS0.live wCfg.liveCollection wCfg.organizationId)) :=
  ⟨rfl, rfl, c6_commit_order wCfg wS0 rfl rfl⟩

/-- Claim C7.  When the preflight probe's query raises, the probe catches
the error, logs "Error during test fetch:", and returns false; main then
behaves exactly as in the no-match case: it logs
"No documents found. Exiting archival process." and returns, the archival
function is never invoked (the final trace is exactly the five listed log
lines, without the archival start line), and both stores are unchanged with
no commit attempted. -/
theorem c7_probe_failure (env : Env) (argv : Argv) (s0 : RunState)
    (h : env.testQueryOk = false) :
    testFetchDocuments env s0 "Organizations" argv.org =
      (false, logErrEv (logInfoEv s0
        ("Testing fetch for organization_id " ++ argv.org ++ " from " ++
          "Organizations" ++ " collection...")) "Error during test fetch:") ∧
    mainRun env argv s0 =
      { s0 with trace := s0.trace ++
          [Event.info "Main Project ID: main",
           Event.info "Archive Project ID: archive",
           Event.info ("Testing fetch for organization_id " ++ argv.org ++ " from " ++
             "Organizations" ++ " collection..."),
           Event.err "Error during test fetch:",
           Event.info "No documents found. Exiting archival process."] } ∧
    (mainRun env argv s0).live = s0.live ∧
    (mainRun env argv s0).archive = s0.archive ∧
    commitEvents (mainRun env argv s0).trace = commitEvents s0.trace := by
  have hprobe : testFetchDocuments env s0 "Organizations" argv.org =
      (false, logErrEv (logInfoEv s0
        ("Testing fetch for organization_id " ++ argv.org ++ " from " ++
          "Organizations" ++ " collection...")) "Error during test fetch:") := by
    simp [testFetchDocuments, h]
  have heq : mainRun env argv s0 =
      { s0 with trace := s0.trace ++
          [Event.info "Main Project ID: main",
           Event.info "Archive Project ID: archive",
           Event.info ("Testing fetch for organization_id " ++ argv.org ++ " from " ++
             "Organizations" ++ " collection..."),
           Event.err "Error during test fetch:",
           Event.info "No documents found. Exiting archival process."] } := by
    simp [mainRun, testFetchDocuments, h, logInfoEv, logErrEv]
  refine ⟨hprobe, heq, ?_, ?_, ?_⟩ <;> rw [heq]
  simp [h]

theorem c7_probe_failure_witness :
    envTFail.testQueryOk = false ∧
    (testFetchDocuments envTFail wS0 "Organizations" (Argv.mk "org1" none).org =
      (false, logErrEv (logInfoEv wS0
        ("Testing fetch for organization_id " ++ (Argv.mk "org1" none).org ++ " from " ++
          "Organizations" ++ " collection...")) "Error during test fetch:") ∧
    mainRun envTFail (Argv.mk "org1" none) wS0 =
      { wS0 with trace := wS0.trace ++
          [Event.info "Main Project ID: main",
           Event.info "Archive Project ID: archive",
           Event.info ("Testing fetch for organization_id " ++ (Argv.mk "org1" none).org ++
             " from " ++ "Organizations" ++ " collection..."),
           Event.err "Error during test fetch:",
           Event.info "No documents found. Exiting archival process."] } ∧
    (mainRun envTFail (Argv.mk "org1" none) wS0).live = wS0.live ∧
    (mainRun envTFail (Argv.mk "org1" none) wS0).archive = wS0.archive ∧
    commitEvents (mainRun envTFail (Argv.mk "org1" none) wS0).trace =
      commitEvents wS0.trace) :=
  ⟨rfl, c7_probe_failure envTFail (Argv.mk "org1" none) wS0 rfl⟩

/-- Claim C8.  When the query succeeds and returns zero matching records,
the archival function logs "No documents match the archival criteria." and
returns immediately: the final state is the initial state with exactly the
start log line and the no-match log line appended, both stores are
unchanged, and no commit is attempted. -/
theorem c8_no_match_noop (env : Env) (cfg : Config) (s0 : RunState)
    (hq : env.queryOk = true)
    (he : queryByOrg s0.live cfg.liveCollection cfg.organizationId = []) :
    archiveContactsDocuments env cfg s0 =
      { s0 with trace := s0.trace ++ [Event.info (startMsg cfg),
          Event.info "No documents match the archival criteria."] } ∧
    (archiveContactsDocuments env cfg s0).live = s0.live ∧
    (archiveContactsDocuments env cfg s0).archive = s0.archive ∧
    commitEvents (archiveContactsDocuments env cfg s0).trace = commitEvents s0.trace := by
  have heq : archiveContactsDocuments env cfg s0 =
      { s0 with trace := s0.trace ++ [Event.info (startMsg cfg),
          Event.info "No documents match the archival criteria."] } := by
    simp [archiveContactsDocuments, hq, logInfoEv, he]
  refine ⟨heq, ?_, ?_, ?_⟩ <;> rw [heq]
  simp

theorem c8_no_match_noop_witness :
    envOk.queryOk = true ∧
    queryByOrg wS0.live ({ wCfg with organizationId := "zzz" } : Config).liveCollection
      ({ wCfg with organizationId := "zzz" } : Config).organizationId = [] ∧
    (archiveContactsDocuments envOk { wCfg with organizationId := "zzz" } wS0 =
      { wS0 with trace := wS0.trace ++
          [Event.info (startMsg { wCfg with organizationId := "zzz" }),
           Event.info "No documents match the archival criteria."] } ∧
    (archiveContactsDocuments envOk { wCfg with organizationId := "zzz" } wS0).live =
      wS0.live ∧
    (archiveContactsDocuments envOk { wCfg with organizationId := "zzz" } wS0).archive =
      wS0.archive ∧
    commitEvents (archiveContactsDocuments envOk
      { wCfg with organizationId := "zzz" } wS0).trace = commitEvents wS0.trace) :=
  ⟨rfl, by decide, c8_no_match_noop envOk _ wS0 rfl (by decide)⟩

/-- Claim C9.  The process exits with a non-zero status exactly when one of
the two service account credential files has a falsy project_id field at
startup; whenever the startup checks pass, the process ends with exit
status 0 for every oracle (so every in-run error is swallowed), and the
final trace then ends in one of the four terminal log lines — the no-match
probe exit, the success line, the no-match archival line, or the logged
caught-error line. -/
theorem c9_exit_code (env : Env) (argv : Argv) (dSA aSA : ServiceAccount) (s0 : RunState) :
    ((runProcess env argv dSA aSA s0).1 ≠ 0 ↔
      (jsTruthyStr dSA.project_id = false ∨ jsTruthyStr aSA.project_id = false)) ∧
    ((runProcess env argv dSA aSA s0).1 = 0 →
      ((runProcess env argv dSA aSA s0).2.trace.getLast? =
          some (Event.info "No documents found. Exiting archival process.") ∨
       (runProcess env argv dSA aSA s0).2.trace.getLast? =
          some (Event.info "Archival process completed successfully.") ∨
       (runProcess env argv dSA aSA s0).2.trace.getLast? =
          some (Event.info "No documents match the archival criteria.") ∨
       (runProcess env argv dSA aSA s0).2.trace.getLast? =
          some (Event.err "Error during archival process:"))) := by
  unfold runProcess
  by_cases h1 : jsTruthyStr dSA.project_id = false
  · rw [if_pos h1]
    constructor
    · simp [h1]
    · intro h2
      simp at h2
  · rw [if_neg h1]
    by_cases h2 : jsTruthyStr aSA.project_id = false
    · rw [if_pos h2]
      constructor
      · simp [h1, h2]
      · intro h3
        simp at h3
    · rw [if_neg h2]
      constructor
      · simp [h1, h2]
      · intro _
        exact mainRun_terminal env argv s0

/-- Claim C10.  When the dryRun flag is omitted, argv.dryRun is undefined
(none); JavaScript truthiness and the destructuring default both read it as
false, so the configuration main builds has isDryRun = false and the whole
run is identical to a run with dryRun explicitly false; concretely, such a
run against the witness store really deletes the matched documents from the
live collection and writes them to the archive collection. -/
theorem c10_omitted_flag_live_run :
    (∀ org : String, (mainConfig (Argv.mk org none)).isDryRun = false) ∧
    (∀ (env : Env) (org : String) (s0 : RunState),
      mainRun env (Argv.mk org none) s0 = mainRun env (Argv.mk org (some false)) s0) ∧
    (mainRun envOk (Argv.mk "org1" none) wS0).live = [("Organizations", [])] ∧
    (mainRun envOk (Argv.mk "org1" none) wS0).archive =
      [("archive_Organizations", [wDoc "a", wDoc "b", wDoc "c"])] := by
  refine ⟨fun _ => rfl, fun _ _ _ => rfl, ?_, ?_⟩ <;> rfl

end ArchiveScript
